import Mathlib

/-!
Shallow embedding of the cron → EventBridge converter of this repository
(the first implementation in the source, whose rules the specification's
§4 consolidates): `convertCronToEventBridge`, `validateCronExpression`,
`isValidCronField`, and the validate-then-convert pipeline that the
surrounding component runs on every input change.

Strings are processed as `List Char`.  The JavaScript primitives the source
relies on — `String.prototype.trim`, `split` (on `/\s+/` and on one-character
separators), `parseInt` with an undefined radix, `includes`, and the three
global regex replacements on the day-of-week field (`/SUN/gi` …, the range
rewrite `/(\d)-(\d)/g`, and the word-boundary digit rewrite `/\b(\d)\b/g`) —
are each modelled explicitly below, next to the function that uses them.
-/

/-- JavaScript whitespace as matched by `\s` (ASCII part): space, TAB, LF,
VT, FF, CR.  Character tests are phrased on `Char.toNat` codes throughout so
that facts about them reduce to linear arithmetic. -/
def isWSChar (c : Char) : Bool :=
  c.toNat = 32 || c.toNat = 9 || c.toNat = 10 || c.toNat = 11 || c.toNat = 12 || c.toNat = 13

/-- ASCII decimal digit, as matched by `\d` and consumed by `parseInt`. -/
def isDigitChar (c : Char) : Bool := 48 ≤ c.toNat && c.toNat ≤ 57

/-- JS regex word character `\w` = `[A-Za-z0-9_]`; used by the `\b`
word-boundary assertions. -/
def isWordChar (c : Char) : Bool :=
  (48 ≤ c.toNat && c.toNat ≤ 57) || (65 ≤ c.toNat && c.toNat ≤ 90) ||
  (97 ≤ c.toNat && c.toNat ≤ 122) || c.toNat = 95

/-- Value of a hexadecimal digit (for `parseInt`'s automatic base-16 mode on
a `0x`/`0X` prefix). -/
def hexDigitVal (c : Char) : Option Nat :=
  if 48 ≤ c.toNat ∧ c.toNat ≤ 57 then some (c.toNat - 48)
  else if 97 ≤ c.toNat ∧ c.toNat ≤ 102 then some (c.toNat - 87)
  else if 65 ≤ c.toNat ∧ c.toNat ≤ 70 then some (c.toNat - 55)
  else none

def isHexChar (c : Char) : Bool := (hexDigitVal c).isSome

def digitsVal (l : List Char) : Nat := l.foldl (fun a c => a * 10 + (c.toNat - 48)) 0

def hexVal (l : List Char) : Nat := l.foldl (fun a c => a * 16 + ((hexDigitVal c).getD 0)) 0

/-- `parseInt` after sign handling: an optional `0x`/`0X` prefix switches to
base 16; otherwise the longest decimal-digit prefix is taken; no digits at
all is `NaN` (here `none`).  Trailing junk is ignored, exactly as in JS. -/
def parseUnsigned (l : List Char) : Option Nat :=
  match l with
  | c0 :: c1 :: rest =>
    if c0 = '0' ∧ (c1 = 'x' ∨ c1 = 'X') then
      let hs := rest.takeWhile isHexChar
      if hs = [] then none else some (hexVal hs)
    else
      let ds := l.takeWhile isDigitChar
      if ds = [] then none else some (digitsVal ds)
  | _ =>
    let ds := l.takeWhile isDigitChar
    if ds = [] then none else some (digitsVal ds)

/-- JavaScript `parseInt(s)` (radix argument omitted): skip leading
whitespace, read an optional sign, then `parseUnsigned`. -/
def parseIntChars (l : List Char) : Option Int :=
  match l.dropWhile isWSChar with
  | [] => none
  | c :: rest =>
    if c = '-' then (parseUnsigned rest).map (fun n => -(n : Int))
    else if c = '+' then (parseUnsigned rest).map (fun n => (n : Int))
    else (parseUnsigned (c :: rest)).map (fun n => (n : Int))

def parseIntJS (s : String) : Option Int := parseIntChars s.toList

/-- JavaScript `s.split(sep)` for a one-character separator: always returns
at least one (possibly empty) piece, e.g. `"a/" ↦ ["a", ""]`. -/
def splitChar (sep : Char) : List Char → List (List Char)
  | [] => [[]]
  | c :: rest =>
    if c = sep then [] :: splitChar sep rest
    else
      match splitChar sep rest with
      | [] => [[c]]
      | p :: ps => (c :: p) :: ps

/-- JavaScript `s.trim()` (whitespace from both ends). -/
def trimList (l : List Char) : List Char :=
  ((l.dropWhile isWSChar).reverse.dropWhile isWSChar).reverse

/-- Accumulator pass behind `splitWS`: collects maximal runs of
non-whitespace characters. -/
def wordsAux : List Char → List Char → List (List Char)
  | [], cur => if cur = [] then [] else [cur.reverse]
  | c :: rest, cur =>
    if isWSChar c then
      if cur = [] then wordsAux rest [] else cur.reverse :: wordsAux rest []
    else wordsAux rest (c :: cur)

/-- `cronExpression.trim().split(/\s+/)`: the non-empty whitespace-separated
tokens of the input.  (On an all-whitespace input JS yields `[""]` where this
yields `[]`; both have length ≠ 5, the only property the source consumes.) -/
def splitWS (s : String) : List String := (wordsAux s.toList []).map (fun l => String.mk l)

/-- JavaScript `field.includes(c)` for a one-character needle. -/
def strContains (s : String) (c : Char) : Bool := s.toList.any (fun x => x = c)

/-- Case-insensitive match of one subject character `c` against one pattern
character `p`, as the `/i` flag gives it for ASCII: equal codes, or the
other-case form when the pattern character is a letter. -/
def matchCI (p c : Char) : Bool :=
  c.toNat = p.toNat ||
  ((65 ≤ p.toNat && p.toNat ≤ 90) && c.toNat = p.toNat + 32) ||
  ((97 ≤ p.toNat && p.toNat ≤ 122) && c.toNat + 32 = p.toNat)

def isPrefixCI : List Char → List Char → Bool
  | [], _ => true
  | _ :: _, [] => false
  | p :: ps, c :: cs => matchCI p c && isPrefixCI ps cs

/-- A character of the class `[A-Z0-9,\-\/]` under the `/i` flag: any ASCII
letter, digit, comma, hyphen or slash. -/
def namedClassChar (c : Char) : Bool :=
  (65 ≤ c.toNat && c.toNat ≤ 90) || (97 ≤ c.toNat && c.toNat ≤ 122) ||
  (48 ≤ c.toNat && c.toNat ≤ 57) || c.toNat = 44 || c.toNat = 45 || c.toNat = 47

def dayNames : List String := ["SUN", "MON", "TUE", "WED", "THU", "FRI", "SAT"]

def monthNames : List String :=
  ["JAN", "FEB", "MAR", "APR", "MAY", "JUN", "JUL", "AUG", "SEP", "OCT", "NOV", "DEC"]

/-- The source's named-token regexes
`^(SUN|MON|TUE|WED|THU|FRI|SAT)(-|,|\/)*[A-Z0-9,\-\/]*$/i` (and the month
analogue).  Since every character the separator group `(-|,|\/)` can match is
also in the trailing class `[A-Z0-9,\-\/]` (with `/i`), the regex accepts a
string exactly when it starts, case-insensitively, with one of the names and
every remaining character lies in that class. -/
def matchesNamed (names : List String) (field : String) : Bool :=
  names.any (fun nm =>
    isPrefixCI nm.toList field.toList &&
    (field.toList.drop nm.toList.length).all namedClassChar)

/-- ASCII lower-casing of one character, for stating the case-insensitivity
of the named-token patterns: an upper-case letter gains 32, anything else is
unchanged. -/
def lowerChar (c : Char) : Char :=
  if 65 ≤ c.toNat ∧ c.toNat ≤ 90 then Char.ofNat (c.toNat + 32) else c

/-- ASCII lower-casing of a whole string. -/
def lowerStr (s : String) : String := String.mk (s.data.map lowerChar)

/-- The source's handling of `start-end` inside `isValidCronField`:
`range.split("-").map(parseInt)` destructured to its first two results, then
`!isNaN(start) && !isNaN(end) && start >= min && end <= max && start <= end`. -/
def checkRange (range : List Char) (min max : Int) : Bool :=
  match splitChar '-' range with
  | st :: en :: _ =>
    match parseIntChars st, parseIntChars en with
    | some a, some b => decide (min ≤ a) && decide (b ≤ max) && decide (a ≤ b)
    | _, _ => false
  | _ => false

/-- `isValidCronField(field, min, max, fieldType)` of the source: wildcard;
the day-of-month `L`/`W` and day-of-week `#`/`L` rejections; the named-day
and named-month patterns; then step, range, list and single-integer checks. -/
def isValidCronField (field : String) (min max : Int) (fieldType : String) : Bool :=
  if field = "*" then true
  else if fieldType = "dayOfMonth" ∧ field = "L" then false
  else if fieldType = "dayOfMonth" ∧ strContains field 'W' = true then false
  else if fieldType = "dayOfWeek" ∧ strContains field '#' = true then false
  else if fieldType = "dayOfWeek" ∧ strContains field 'L' = true then false
  else if fieldType = "dayOfWeek" ∧ matchesNamed dayNames field = true then true
  else if fieldType = "month" ∧ matchesNamed monthNames field = true then true
  else if strContains field '/' then
    match splitChar '/' field.toList with
    | range :: step :: _ =>
      match parseIntChars step with
      | none => false
      | some stepNum =>
        if stepNum ≤ 0 then false
        else if range = ['*'] then true
        else if range.any (fun x => x = '-') then checkRange range min max
        else
          match parseIntChars range with
          | some r => decide (min ≤ r) && decide (r ≤ max)
          | none => false
    | _ => false
  else if strContains field '-' then checkRange field.toList min max
  else if strContains field ',' then
    (splitChar ',' field.toList).all (fun v =>
      match parseIntChars (trimList v) with
      | some n => decide (min ≤ n) && decide (n ≤ max)
      | none => false)
  else
    match parseIntChars field.toList with
    | some n => decide (min ≤ n) && decide (n ≤ max)
    | none => false

/-- `validateCronExpression` of the source: exactly five whitespace-separated
tokens, each valid for its field, in the order minute, hour, day-of-month,
month, day-of-week. -/
def validateCronExpression (s : String) : Bool :=
  match splitWS s with
  | [minute, hour, dayOfMonth, month, dayOfWeek] =>
    isValidCronField minute 0 59 "minute" &&
    isValidCronField hour 0 23 "hour" &&
    isValidCronField dayOfMonth 1 31 "dayOfMonth" &&
    isValidCronField month 1 12 "month" &&
    isValidCronField dayOfWeek 0 7 "dayOfWeek"
  | _ => false

/-- Decimal digit character for `m ≤ 9`, by table (so that facts about the
produced characters are decidable without `Char.ofNat` reasoning). -/
def digitChar (m : Nat) : Char :=
  if m = 0 then '0' else if m = 1 then '1' else if m = 2 then '2' else if m = 3 then '3'
  else if m = 4 then '4' else if m = 5 then '5' else if m = 6 then '6' else if m = 7 then '7'
  else if m = 8 then '8' else '9'

/-- Decimal rendering of a natural number (JS template-literal `${n}`),
least-significant digit first into the accumulator; the fuel `n + 1` always
suffices since a number has at most `n + 1` decimal digits. -/
def natCharsAux : Nat → Nat → List Char → List Char
  | 0, _, acc => acc
  | fuel + 1, n, acc =>
    if n < 10 then digitChar n :: acc
    else natCharsAux fuel (n / 10) (digitChar (n % 10) :: acc)

def natChars (n : Nat) : List Char := natCharsAux (n + 1) n []

def intChars (i : Int) : List Char :=
  if i < 0 then '-' :: natChars i.natAbs else natChars i.toNat

/-- One pass of `str.replace(/P₁P₂P₃/gi, rep)` for a three-character literal
pattern: scan left to right; on a (case-insensitive) match consume three
characters and emit `rep`, otherwise emit one character and advance.  The
current character is carried separately from the unread tail so the
recursion is structural. -/
def replace3Go (p1 p2 p3 rep : Char) : Char → List Char → List Char
  | a, b :: c :: rest =>
    if matchCI p1 a && matchCI p2 b && matchCI p3 c then
      rep :: (match rest with
              | [] => []
              | d :: rest2 => replace3Go p1 p2 p3 rep d rest2)
    else a :: replace3Go p1 p2 p3 rep b (c :: rest)
  | a, l => a :: l

def replace3CI (p1 p2 p3 rep : Char) : List Char → List Char
  | [] => []
  | a :: rest => replace3Go p1 p2 p3 rep a rest

/-- The source's chained named-day substitutions on the day-of-week field:
`.replace(/SUN/gi,"1").replace(/MON/gi,"2") … .replace(/SAT/gi,"7")`,
applied in that order, each as a full pass over the previous result. -/
def replaceNames (l : List Char) : List Char :=
  replace3CI 'S' 'A' 'T' '7'
    (replace3CI 'F' 'R' 'I' '6'
      (replace3CI 'T' 'H' 'U' '5'
        (replace3CI 'W' 'E' 'D' '4'
          (replace3CI 'T' 'U' 'E' '3'
            (replace3CI 'M' 'O' 'N' '2'
              (replace3CI 'S' 'U' 'N' '1' l))))))

/-- The range callback's per-endpoint offset: `n === 0 ? 1 : n + 1`. -/
def offsetDigit (n : Nat) : Nat := if n = 0 then 1 else n + 1

/-- `dayOfWeek.replace(/(\d)-(\d)/g, ...)`: each single digit–hyphen–single
digit occurrence, scanned left to right without overlap, becomes
`${newStart}-${newEnd}` with both endpoints offset by `offsetDigit`. -/
def replaceRangesGo (a : Char) : List Char → List Char
  | [] => [a]
  | b :: rest =>
    if b = '-' then
      match rest with
      | [] => [a, b]
      | c :: rest2 =>
        if isDigitChar a && isDigitChar c then
          natChars (offsetDigit (a.toNat - 48)) ++ '-' ::
            (natChars (offsetDigit (c.toNat - 48)) ++
              (match rest2 with
               | [] => []
               | d :: rest3 => replaceRangesGo d rest3))
        else a :: replaceRangesGo b (c :: rest2)
    else a :: replaceRangesGo b rest

def replaceRangesL : List Char → List Char
  | [] => []
  | a :: rest => replaceRangesGo a rest

/-- The `/\b(\d)\b/g` callback: `0 ↦ "1"`, `1…6 ↦ String(n+1)`, anything
else keeps the matched character. -/
def digitSub (c : Char) : List Char :=
  if c.toNat - 48 = 0 then ['1']
  else if 1 ≤ c.toNat - 48 ∧ c.toNat - 48 ≤ 6 then natChars (c.toNat - 48 + 1)
  else [c]

def boundaryBefore : Option Char → Bool
  | none => true
  | some p => !isWordChar p

def boundaryAfter : List Char → Bool
  | [] => true
  | d :: _ => !isWordChar d

/-- `dayOfWeek.replace(/\b(\d)\b/g, ...)`: a digit is rewritten by
`digitSub` when flanked by word boundaries; the boundary context is the
original neighbouring characters, as the regex engine scans the subject. -/
def replaceDigitsGo : Option Char → List Char → List Char
  | _, [] => []
  | prev, c :: rest =>
    if isDigitChar c && boundaryBefore prev && boundaryAfter rest then
      digitSub c ++ replaceDigitsGo (some c) rest
    else c :: replaceDigitsGo (some c) rest

def replaceDigitsL (l : List Char) : List Char := replaceDigitsGo none l

/-- The step-value block of the conversion (`if (dayOfWeek.includes("/"))`):
split at `/`, keep a `*` base, leave a base containing `-` alone (already
handled by the range rewrite), and offset a parseable numeric base by
`base === 0 ? 1 : (1 ≤ base ≤ 6 ? base + 1 : base)`, rebuilding
`${convertedBase}/${step}` from the first two split pieces. -/
def stepHandleL (l : List Char) : List Char :=
  match splitChar '/' l with
  | range :: step :: _ =>
    if range = ['*'] then '*' :: '/' :: step
    else if range.any (fun x => x = '-') then l
    else
      match parseIntChars range with
      | some base =>
        let convertedBase : Int :=
          if base = 0 then 1 else if 1 ≤ base ∧ base ≤ 6 then base + 1 else base
        intChars convertedBase ++ '/' :: step
      | none => l
  | _ => l

/-- The whole day-of-week rewrite of `convertCronToEventBridge`, lines
30–73 of the source: named days, then ranges, then word-boundary digits,
then the step block. -/
def remapDowL (l : List Char) : List Char :=
  let d3 := replaceDigitsL (replaceRangesL (replaceNames l))
  if d3.any (fun x => x = '/') then stepHandleL d3 else d3

/-- The rewrite is guarded by `if (dayOfWeek !== "*")`. -/
def remapDow (dw : String) : String :=
  if dw = "*" then dw else String.mk (remapDowL dw.toList)

/-- The day-of-month / day-of-week mutual-exclusivity block (lines 75–86):
both specified → day-of-week becomes `?`; both `*` → day-of-week becomes
`?`; only day-of-week specified → day-of-month becomes `?`; otherwise both
are left alone. -/
def resolveDays (dayOfMonth dayOfWeek : String) : String × String :=
  if dayOfMonth ≠ "*" ∧ dayOfWeek ≠ "*" then (dayOfMonth, "?")
  else if dayOfMonth = "*" ∧ dayOfWeek = "*" then (dayOfMonth, "?")
  else if dayOfMonth = "*" ∧ dayOfWeek ≠ "*" then ("?", dayOfWeek)
  else (dayOfMonth, dayOfWeek)

/-- `` `${minute} ${hour} ${dayOfMonth} ${month} ${dayOfWeek} *` ``. -/
def joinSix (minute hour dayOfMonth month dayOfWeek : String) : String :=
  minute ++ " " ++ hour ++ " " ++ dayOfMonth ++ " " ++ month ++ " " ++ dayOfWeek ++ " *"

/-- `convertCronToEventBridge` of the source: throws (here `none`) exactly
when the input does not split into five fields; otherwise rewrites the
day-of-week numbering, resolves day-of-month/day-of-week exclusivity, and
appends the literal year wildcard. -/
def convertCronToEventBridge (s : String) : Option String :=
  match splitWS s with
  | [minute, hour, dayOfMonth, month, dayOfWeek] =>
    let p := resolveDays dayOfMonth (remapDow dayOfWeek)
    some (joinSix minute hour p.1 month p.2)
  | _ => none

/-- The validate-then-convert pipeline the component runs on each input
(the `useEffect` body): an input failing `validateCronExpression` surfaces
an error and produces no output at all; otherwise the conversion runs. -/
def convert (s : String) : Option String :=
  if validateCronExpression s then convertCronToEventBridge s else none

/-!
## Infrastructure lemmas

Facts about the string helpers and the rewrite stages: `splitWS` produces
non-empty whitespace-free tokens; each stage of the day-of-week rewrite
preserves non-emptiness and whitespace-freeness; re-splitting the emitted
six-field string recovers the six fields.
-/

lemma wordsAux_tokens : ∀ (l cur : List Char), (∀ c ∈ cur, isWSChar c = false) →
    ∀ t ∈ wordsAux l cur, t ≠ [] ∧ ∀ c ∈ t, isWSChar c = false := by
  intro l
  induction l with
  | nil =>
    intro cur hcur t ht
    rw [wordsAux.eq_1] at ht
    split at ht
    · simp at ht
    · rename_i hne
      simp only [List.mem_singleton] at ht
      subst ht
      exact ⟨by simpa using hne, fun c hc => hcur c (List.mem_reverse.mp hc)⟩
  | cons c rest ih =>
    intro cur hcur t ht
    rw [wordsAux.eq_2] at ht
    split at ht
    · split at ht
      · exact ih [] (by simp) t ht
      · rename_i hne
        rcases List.mem_cons.mp ht with h | h
        · subst h
          exact ⟨by simpa using hne, fun x hx => hcur x (List.mem_reverse.mp hx)⟩
        · exact ih [] (by simp) t h
    · rename_i hcws
      refine ih (c :: cur) ?_ t ht
      intro x hx
      rcases List.mem_cons.mp hx with h | h
      · subst h; simpa using hcws
      · exact hcur x h

lemma splitWS_tokens (s : String) :
    ∀ t ∈ splitWS s, t.data ≠ [] ∧ ∀ c ∈ t.data, isWSChar c = false := by
  intro t ht
  unfold splitWS at ht
  rcases List.mem_map.mp ht with ⟨l, hl, rfl⟩
  exact wordsAux_tokens _ [] (by simp) l hl

lemma wordsAux_append_token : ∀ (t rest cur : List Char),
    (∀ c ∈ t, isWSChar c = false) → cur.reverse ++ t ≠ [] →
    wordsAux (t ++ ' ' :: rest) cur = (cur.reverse ++ t) :: wordsAux rest [] := by
  intro t
  induction t with
  | nil =>
    intro rest cur _ hne
    simp only [List.append_nil] at hne
    simp only [List.nil_append, List.append_nil]
    rw [wordsAux.eq_2, if_pos (by decide), if_neg (fun h => hne (by simp [h]))]
  | cons a t ih =>
    intro rest cur ht hne
    have ha : isWSChar a = false := ht a (by simp)
    rw [List.cons_append, wordsAux.eq_2, if_neg (by simp [ha])]
    rw [ih rest (a :: cur) (fun c hc => ht c (by simp [hc])) (by simp)]
    simp [List.reverse_cons, List.append_assoc]

lemma wordsAux_last_token : ∀ (t cur : List Char),
    (∀ c ∈ t, isWSChar c = false) → cur.reverse ++ t ≠ [] →
    wordsAux t cur = [cur.reverse ++ t] := by
  intro t
  induction t with
  | nil =>
    intro cur _ hne
    simp only [List.append_nil] at hne ⊢
    rw [wordsAux.eq_1, if_neg (fun h => hne (by simp [h]))]
  | cons a t ih =>
    intro cur ht hne
    have ha : isWSChar a = false := ht a (by simp)
    rw [wordsAux.eq_2, if_neg (by simp [ha])]
    rw [ih (a :: cur) (fun c hc => ht c (by simp [hc])) (by simp)]
    simp [List.reverse_cons, List.append_assoc]

lemma mk_data (s : String) : String.mk s.data = s := rfl

lemma splitWS_joinSix (m h dm mo dw : String)
    (hm : m.data ≠ []) (hm2 : ∀ c ∈ m.data, isWSChar c = false)
    (hh : h.data ≠ []) (hh2 : ∀ c ∈ h.data, isWSChar c = false)
    (hdm : dm.data ≠ []) (hdm2 : ∀ c ∈ dm.data, isWSChar c = false)
    (hmo : mo.data ≠ []) (hmo2 : ∀ c ∈ mo.data, isWSChar c = false)
    (hdw : dw.data ≠ []) (hdw2 : ∀ c ∈ dw.data, isWSChar c = false) :
    splitWS (joinSix m h dm mo dw) = [m, h, dm, mo, dw, "*"] := by
  unfold splitWS joinSix
  have hdata : (m ++ " " ++ h ++ " " ++ dm ++ " " ++ mo ++ " " ++ dw ++ " *").toList
      = m.data ++ ' ' :: (h.data ++ ' ' :: (dm.data ++ ' ' :: (mo.data ++ ' ' ::
        (dw.data ++ ' ' :: ['*'])))) := by
    show (m ++ " " ++ h ++ " " ++ dm ++ " " ++ mo ++ " " ++ dw ++ " *").data = _
    simp [String.data_append, List.append_assoc]
  rw [hdata]
  rw [wordsAux_append_token m.data _ [] hm2 (by simpa using hm)]
  rw [wordsAux_append_token h.data _ [] hh2 (by simpa using hh)]
  rw [wordsAux_append_token dm.data _ [] hdm2 (by simpa using hdm)]
  rw [wordsAux_append_token mo.data _ [] hmo2 (by simpa using hmo)]
  rw [wordsAux_append_token dw.data _ [] hdw2 (by simpa using hdw)]
  rw [wordsAux_last_token ['*'] [] (by decide) (by decide)]
  simp only [List.reverse_nil, List.nil_append, List.map_cons, List.map_nil, mk_data]

lemma digitChar_not_ws (m : Nat) : isWSChar (digitChar m) = false := by
  unfold digitChar
  split_ifs <;> decide

lemma natCharsAux_noWS : ∀ (fuel n : Nat) (acc : List Char),
    (∀ c ∈ acc, isWSChar c = false) → ∀ c ∈ natCharsAux fuel n acc, isWSChar c = false := by
  intro fuel
  induction fuel with
  | zero => intro n acc hacc; simpa [natCharsAux] using hacc
  | succ f ih =>
    intro n acc hacc
    rw [natCharsAux.eq_2]
    split_ifs
    · intro c hc
      rcases List.mem_cons.mp hc with h | h
      · subst h; exact digitChar_not_ws n
      · exact hacc c h
    · refine ih _ _ ?_
      intro c hc
      rcases List.mem_cons.mp hc with h | h
      · subst h; exact digitChar_not_ws _
      · exact hacc c h

lemma natChars_noWS (n : Nat) : ∀ c ∈ natChars n, isWSChar c = false :=
  natCharsAux_noWS _ _ [] (by simp)

lemma natCharsAux_acc : ∀ (fuel n : Nat) (acc : List Char),
    ∃ pre, natCharsAux fuel n acc = pre ++ acc ∧ (fuel ≠ 0 → pre ≠ []) := by
  intro fuel
  induction fuel with
  | zero => intro n acc; exact ⟨[], by simp [natCharsAux]⟩
  | succ f ih =>
    intro n acc
    rw [natCharsAux.eq_2]
    split_ifs
    · exact ⟨[digitChar n], by simp⟩
    · obtain ⟨pre, hpre, _⟩ := ih (n / 10) (digitChar (n % 10) :: acc)
      exact ⟨pre ++ [digitChar (n % 10)], by simp [hpre], by simp⟩

lemma natChars_ne_nil (n : Nat) : natChars n ≠ [] := by
  obtain ⟨pre, hpre, hne⟩ := natCharsAux_acc (n + 1) n []
  unfold natChars
  rw [hpre]
  simpa using hne (by omega)

lemma intChars_noWS (i : Int) : ∀ c ∈ intChars i, isWSChar c = false := by
  unfold intChars
  split
  · intro c hc
    rcases List.mem_cons.mp hc with h | h
    · subst h; decide
    · exact natChars_noWS _ c h
  · exact natChars_noWS _

lemma intChars_ne_nil (i : Int) : intChars i ≠ [] := by
  unfold intChars
  split
  · simp
  · exact natChars_ne_nil _

lemma splitChar_cons (sep c : Char) (l : List Char) : splitChar sep (c :: l) =
    if c = sep then [] :: splitChar sep l
    else match splitChar sep l with
         | [] => [[c]]
         | p :: ps => (c :: p) :: ps := by
  rw [splitChar.eq_def]

lemma splitChar_ne_nil (sep : Char) : ∀ l : List Char, splitChar sep l ≠ [] := by
  intro l
  induction l with
  | nil => simp [splitChar]
  | cons c rest ih =>
    rw [splitChar_cons]
    split_ifs
    · simp
    · rcases hsp : splitChar sep rest with _ | ⟨p, ps⟩
      · exact absurd hsp ih
      · simp

lemma splitChar_sub (sep : Char) : ∀ (l p : List Char), p ∈ splitChar sep l →
    ∀ c ∈ p, c ∈ l := by
  intro l
  induction l with
  | nil =>
    intro p hp c hc
    simp [splitChar] at hp
    subst hp
    simp at hc
  | cons a rest ih =>
    intro p hp c hc
    rw [splitChar_cons] at hp
    split_ifs at hp
    · rcases List.mem_cons.mp hp with h | h
      · subst h; simp at hc
      · exact List.mem_cons_of_mem a (ih p h c hc)
    · rcases hsp : splitChar sep rest with _ | ⟨q, qs⟩
      · exact absurd hsp (splitChar_ne_nil sep rest)
      · rw [hsp] at hp
        rcases List.mem_cons.mp hp with h | h
        · subst h
          rcases List.mem_cons.mp hc with h2 | h2
          · subst h2; simp
          · exact List.mem_cons_of_mem a (ih q (by rw [hsp]; simp) c h2)
        · exact List.mem_cons_of_mem a (ih p (by rw [hsp]; simp [h]) c hc)

lemma splitChar_cons_ne (sep c : Char) (l : List Char) (h : c ≠ sep) :
    ∃ p ps, splitChar sep l = p :: ps ∧ splitChar sep (c :: l) = (c :: p) :: ps := by
  rcases hsp : splitChar sep l with _ | ⟨p, ps⟩
  · exact absurd hsp (splitChar_ne_nil sep l)
  · refine ⟨p, ps, rfl, ?_⟩
    rw [splitChar_cons, if_neg h, hsp]

lemma replace3Go_eq_nil (p1 p2 p3 rep a : Char) : replace3Go p1 p2 p3 rep a [] = [a] := by
  rw [replace3Go.eq_def]

lemma replace3Go_eq_one (p1 p2 p3 rep a b : Char) :
    replace3Go p1 p2 p3 rep a [b] = [a, b] := by
  rw [replace3Go.eq_def]

lemma replace3Go_eq_cons2 (p1 p2 p3 rep a b c : Char) (rest : List Char) :
    replace3Go p1 p2 p3 rep a (b :: c :: rest) =
      if matchCI p1 a && matchCI p2 b && matchCI p3 c then
        rep :: (match rest with
                | [] => []
                | d :: rest2 => replace3Go p1 p2 p3 rep d rest2)
      else a :: replace3Go p1 p2 p3 rep b (c :: rest) := by
  rw [replace3Go.eq_def]

lemma replace3Go_ne_nil (p1 p2 p3 rep a : Char) (l : List Char) :
    replace3Go p1 p2 p3 rep a l ≠ [] := by
  rcases l with _ | ⟨b, _ | ⟨c, rest⟩⟩
  · rw [replace3Go_eq_nil]; simp
  · rw [replace3Go_eq_one]; simp
  · rw [replace3Go_eq_cons2]
    split_ifs <;> simp

lemma replace3Go_noWS (p1 p2 p3 rep : Char) (hrep : isWSChar rep = false) :
    ∀ (n : Nat) (a : Char) (l : List Char), l.length ≤ n → isWSChar a = false →
      (∀ c ∈ l, isWSChar c = false) →
      ∀ c ∈ replace3Go p1 p2 p3 rep a l, isWSChar c = false := by
  intro n
  induction n with
  | zero =>
    intro a l hl ha hcl
    have hnil : l = [] := List.eq_nil_of_length_eq_zero (Nat.le_zero.mp hl)
    subst hnil
    rw [replace3Go_eq_nil]
    intro c hc
    rcases List.mem_singleton.mp hc with rfl
    exact ha
  | succ n ih =>
    intro a l hl ha hcl
    rcases l with _ | ⟨b, _ | ⟨c0, rest⟩⟩
    · rw [replace3Go_eq_nil]
      intro c hc
      rcases List.mem_singleton.mp hc with rfl
      exact ha
    · rw [replace3Go_eq_one]
      intro c hc
      rcases List.mem_cons.mp hc with rfl | hc
      · exact ha
      · rcases List.mem_singleton.mp hc with rfl
        exact hcl _ (by simp)
    · rw [replace3Go_eq_cons2]
      split_ifs with hm
      · intro c hc
        rcases List.mem_cons.mp hc with rfl | hc
        · exact hrep
        · rcases rest with _ | ⟨d, rest2⟩
          · simp at hc
          · refine ih d rest2 (by simp at hl ⊢; omega) (hcl d (by simp)) ?_ c hc
            intro x hx
            exact hcl x (by simp [hx])
      · intro c hc
        rcases List.mem_cons.mp hc with rfl | hc
        · exact ha
        · refine ih b (c0 :: rest) (by simp at hl ⊢; omega) (hcl b (by simp)) ?_ c hc
          intro x hx
          refine hcl x ?_
          simp at hx ⊢
          tauto

lemma replace3CI_ne_nil (p1 p2 p3 rep : Char) (l : List Char) (h : l ≠ []) :
    replace3CI p1 p2 p3 rep l ≠ [] := by
  rcases l with _ | ⟨a, rest⟩
  · exact absurd rfl h
  · exact replace3Go_ne_nil p1 p2 p3 rep a rest

lemma replace3CI_noWS (p1 p2 p3 rep : Char) (hrep : isWSChar rep = false) (l : List Char)
    (hl : ∀ c ∈ l, isWSChar c = false) :
    ∀ c ∈ replace3CI p1 p2 p3 rep l, isWSChar c = false := by
  rcases l with _ | ⟨a, rest⟩
  · simp [replace3CI]
  · exact replace3Go_noWS p1 p2 p3 rep hrep rest.length a rest (le_refl _)
      (hl a (by simp)) (fun c hc => hl c (by simp [hc]))

lemma replaceNames_ne_nil (l : List Char) (h : l ≠ []) : replaceNames l ≠ [] := by
  unfold replaceNames
  iterate 7 refine replace3CI_ne_nil _ _ _ _ _ ?_
  exact h

lemma replaceNames_noWS (l : List Char) (hl : ∀ c ∈ l, isWSChar c = false) :
    ∀ c ∈ replaceNames l, isWSChar c = false := by
  unfold replaceNames
  iterate 7 refine replace3CI_noWS _ _ _ _ (by decide) _ ?_
  exact hl

lemma replaceRangesGo_eq_nil (a : Char) : replaceRangesGo a [] = [a] := by
  rw [replaceRangesGo.eq_def]

lemma replaceRangesGo_eq_cons (a b : Char) (rest : List Char) :
    replaceRangesGo a (b :: rest) =
      if b = '-' then
        match rest with
        | [] => [a, b]
        | c :: rest2 =>
          if isDigitChar a && isDigitChar c then
            natChars (offsetDigit (a.toNat - 48)) ++ '-' ::
              (natChars (offsetDigit (c.toNat - 48)) ++
                (match rest2 with
                 | [] => []
                 | d :: rest3 => replaceRangesGo d rest3))
          else a :: replaceRangesGo b (c :: rest2)
      else a :: replaceRangesGo b rest := by
  rw [replaceRangesGo.eq_def]

lemma replaceRangesGo_eq_dash_one (a : Char) : replaceRangesGo a ['-'] = [a, '-'] := by
  rw [replaceRangesGo_eq_cons]
  simp

lemma replaceRangesGo_eq_dash_cons (a c : Char) (rest2 : List Char) :
    replaceRangesGo a ('-' :: c :: rest2) =
      if isDigitChar a && isDigitChar c then
        natChars (offsetDigit (a.toNat - 48)) ++ '-' ::
          (natChars (offsetDigit (c.toNat - 48)) ++
            (match rest2 with
             | [] => []
             | d :: rest3 => replaceRangesGo d rest3))
      else a :: replaceRangesGo '-' (c :: rest2) := by
  rw [replaceRangesGo_eq_cons]
  simp

lemma replaceRangesGo_eq_cons_ne (a b : Char) (rest : List Char) (h : b ≠ '-') :
    replaceRangesGo a (b :: rest) = a :: replaceRangesGo b rest := by
  rw [replaceRangesGo_eq_cons, if_neg h]

lemma replaceRangesGo_ne_nil : ∀ (n : Nat) (a : Char) (l : List Char), l.length ≤ n →
    replaceRangesGo a l ≠ [] := by
  intro n
  induction n with
  | zero =>
    intro a l hl
    have hnil : l = [] := List.eq_nil_of_length_eq_zero (Nat.le_zero.mp hl)
    subst hnil
    rw [replaceRangesGo_eq_nil]
    simp
  | succ n ih =>
    intro a l hl
    rcases l with _ | ⟨b, rest⟩
    · rw [replaceRangesGo_eq_nil]; exact List.cons_ne_nil _ _
    by_cases hb : b = '-'
    · subst hb
      rcases rest with _ | ⟨c, rest2⟩
      · rw [replaceRangesGo_eq_dash_one]; exact List.cons_ne_nil _ _
      · rw [replaceRangesGo_eq_dash_cons]
        split_ifs
        · exact List.append_ne_nil_of_left_ne_nil (natChars_ne_nil _) _
        · exact List.cons_ne_nil _ _
    · rw [replaceRangesGo_eq_cons_ne _ _ _ hb]
      exact List.cons_ne_nil _ _

lemma replaceRangesGo_noWS :
    ∀ (n : Nat) (a : Char) (l : List Char), l.length ≤ n → isWSChar a = false →
      (∀ c ∈ l, isWSChar c = false) →
      ∀ c ∈ replaceRangesGo a l, isWSChar c = false := by
  intro n
  induction n with
  | zero =>
    intro a l hl ha hcl
    have hnil : l = [] := List.eq_nil_of_length_eq_zero (Nat.le_zero.mp hl)
    subst hnil
    rw [replaceRangesGo_eq_nil]
    intro c hc
    rcases List.mem_singleton.mp hc with rfl
    exact ha
  | succ n ih =>
    intro a l hl ha hcl
    rcases l with _ | ⟨b, rest⟩
    · rw [replaceRangesGo_eq_nil]
      intro c hc
      rcases List.mem_singleton.mp hc with rfl
      exact ha
    by_cases hb : b = '-'
    · subst hb
      rcases rest with _ | ⟨c0, rest2⟩
      · rw [replaceRangesGo_eq_dash_one]
        intro c hc
        simp only [List.mem_cons, List.not_mem_nil, or_false] at hc
        rcases hc with rfl | rfl
        · exact ha
        · decide
      · rw [replaceRangesGo_eq_dash_cons]
        split_ifs
        · intro c hc
          simp only [List.mem_append, List.mem_cons] at hc
          rcases hc with hc | hc | hc | hc
          · exact natChars_noWS _ c hc
          · subst hc; decide
          · exact natChars_noWS _ c hc
          · rcases rest2 with _ | ⟨d, rest3⟩
            · simp at hc
            · refine ih d rest3 (by simp at hl ⊢; omega) (hcl d (by simp)) ?_ c hc
              intro x hx
              exact hcl x (by simp [hx])
        · intro c hc
          rcases List.mem_cons.mp hc with rfl | hc
          · exact ha
          · refine ih '-' (c0 :: rest2) (by simp at hl ⊢; omega) (by decide) ?_ c hc
            intro x hx
            refine hcl x ?_
            simp at hx ⊢
            tauto
    · rw [replaceRangesGo_eq_cons_ne _ _ _ hb]
      intro c hc
      rcases List.mem_cons.mp hc with rfl | hc
      · exact ha
      · exact ih b rest (by simp at hl ⊢; omega) (hcl b (by simp))
          (fun x hx => hcl x (by simp [hx])) c hc

lemma replaceRangesL_ne_nil (l : List Char) (h : l ≠ []) : replaceRangesL l ≠ [] := by
  rcases l with _ | ⟨a, rest⟩
  · exact absurd rfl h
  · exact replaceRangesGo_ne_nil rest.length a rest (le_refl _)

lemma replaceRangesL_noWS (l : List Char) (hl : ∀ c ∈ l, isWSChar c = false) :
    ∀ c ∈ replaceRangesL l, isWSChar c = false := by
  rcases l with _ | ⟨a, rest⟩
  · simp [replaceRangesL]
  · exact replaceRangesGo_noWS rest.length a rest (le_refl _) (hl a (by simp))
      (fun c hc => hl c (by simp [hc]))

lemma digitSub_ne_nil (c : Char) : digitSub c ≠ [] := by
  unfold digitSub
  split_ifs
  · simp
  · exact natChars_ne_nil _
  · simp

lemma digitSub_noWS (c : Char) (hc : isWSChar c = false) :
    ∀ x ∈ digitSub c, isWSChar x = false := by
  unfold digitSub
  split_ifs
  · intro x hx
    rcases List.mem_singleton.mp hx with rfl
    decide
  · exact natChars_noWS _
  · intro x hx
    rcases List.mem_singleton.mp hx with rfl
    exact hc

lemma replaceDigitsGo_eq_cons (prev : Option Char) (a : Char) (rest : List Char) :
    replaceDigitsGo prev (a :: rest) =
      if isDigitChar a && boundaryBefore prev && boundaryAfter rest then
        digitSub a ++ replaceDigitsGo (some a) rest
      else a :: replaceDigitsGo (some a) rest := by
  rw [replaceDigitsGo.eq_def]

lemma replaceDigitsGo_noWS : ∀ (l : List Char) (prev : Option Char),
    (∀ c ∈ l, isWSChar c = false) →
    ∀ c ∈ replaceDigitsGo prev l, isWSChar c = false := by
  intro l
  induction l with
  | nil => intro prev _; simp [replaceDigitsGo]
  | cons a rest ih =>
    intro prev hl
    rw [replaceDigitsGo_eq_cons]
    split_ifs
    · intro c hc
      rcases List.mem_append.mp hc with hc | hc
      · exact digitSub_noWS a (hl a (by simp)) c hc
      · exact ih (some a) (fun x hx => hl x (by simp [hx])) c hc
    · intro c hc
      rcases List.mem_cons.mp hc with rfl | hc
      · exact hl _ (by simp)
      · exact ih (some a) (fun x hx => hl x (by simp [hx])) c hc

lemma replaceDigitsGo_ne_nil (prev : Option Char) (l : List Char) (h : l ≠ []) :
    replaceDigitsGo prev l ≠ [] := by
  rcases l with _ | ⟨a, rest⟩
  · exact absurd rfl h
  · rw [replaceDigitsGo_eq_cons]
    split_ifs
    · exact List.append_ne_nil_of_left_ne_nil (digitSub_ne_nil a) _
    · simp

lemma replaceDigitsL_ne_nil (l : List Char) (h : l ≠ []) : replaceDigitsL l ≠ [] :=
  replaceDigitsGo_ne_nil none l h

lemma replaceDigitsL_noWS (l : List Char) (hl : ∀ c ∈ l, isWSChar c = false) :
    ∀ c ∈ replaceDigitsL l, isWSChar c = false :=
  replaceDigitsGo_noWS l none hl

lemma stepHandleL_ne_nil (l : List Char) (h : l ≠ []) : stepHandleL l ≠ [] := by
  unfold stepHandleL
  rcases hsp : splitChar '/' l with _ | ⟨range, _ | ⟨step, rest⟩⟩
  · exact h
  · exact h
  · dsimp only
    split_ifs
    · simp
    · exact h
    · rcases hpi : parseIntChars range with _ | base
      · exact h
      · exact List.append_ne_nil_of_left_ne_nil (intChars_ne_nil _) _

lemma stepHandleL_noWS (l : List Char) (hl : ∀ c ∈ l, isWSChar c = false) :
    ∀ c ∈ stepHandleL l, isWSChar c = false := by
  unfold stepHandleL
  rcases hsp : splitChar '/' l with _ | ⟨range, _ | ⟨step, rest⟩⟩
  · exact hl
  · exact hl
  · have hstep : ∀ c ∈ step, isWSChar c = false := by
      intro c hc
      exact hl c (splitChar_sub '/' l step (by rw [hsp]; simp) c hc)
    dsimp only
    split_ifs
    · intro c hc
      rcases List.mem_cons.mp hc with rfl | hc
      · decide
      · rcases List.mem_cons.mp hc with rfl | hc
        · decide
        · exact hstep c hc
    · exact hl
    · rcases hpi : parseIntChars range with _ | base
      · exact hl
      · intro c hc
        rcases List.mem_append.mp hc with hc | hc
        · exact intChars_noWS _ c hc
        · rcases List.mem_cons.mp hc with rfl | hc
          · decide
          · exact hstep c hc

lemma remapDowL_ne_nil (l : List Char) (h : l ≠ []) : remapDowL l ≠ [] := by
  unfold remapDowL
  dsimp only
  split_ifs
  · exact stepHandleL_ne_nil _ (replaceDigitsL_ne_nil _ (replaceRangesL_ne_nil _
      (replaceNames_ne_nil _ h)))
  · exact replaceDigitsL_ne_nil _ (replaceRangesL_ne_nil _ (replaceNames_ne_nil _ h))

lemma remapDowL_noWS (l : List Char) (hl : ∀ c ∈ l, isWSChar c = false) :
    ∀ c ∈ remapDowL l, isWSChar c = false := by
  unfold remapDowL
  dsimp only
  split_ifs
  · exact stepHandleL_noWS _ (replaceDigitsL_noWS _ (replaceRangesL_noWS _
      (replaceNames_noWS _ hl)))
  · exact replaceDigitsL_noWS _ (replaceRangesL_noWS _ (replaceNames_noWS _ hl))

lemma remapDow_props (dw : String) (h1 : dw.data ≠ [])
    (h2 : ∀ c ∈ dw.data, isWSChar c = false) :
    (remapDow dw).data ≠ [] ∧ ∀ c ∈ (remapDow dw).data, isWSChar c = false := by
  unfold remapDow
  split_ifs with h
  · exact ⟨h1, h2⟩
  · exact ⟨remapDowL_ne_nil dw.data h1, remapDowL_noWS dw.data h2⟩

lemma resolveDays_cases (a b : String) :
    resolveDays a b = (a, "?") ∨ resolveDays a b = ("?", b) ∨ resolveDays a b = (a, b) := by
  unfold resolveDays
  split_ifs <;> simp

lemma qmark_props : (("?" : String).data ≠ [] ∧ ∀ c ∈ ("?" : String).data, isWSChar c = false) := by
  constructor
  · decide
  · decide

lemma convert_shape (s m h dm mo dw : String) (hs : splitWS s = [m, h, dm, mo, dw]) :
    ∃ dm2 dw2, convertCronToEventBridge s = some (joinSix m h dm2 mo dw2) ∧
      splitWS (joinSix m h dm2 mo dw2) = [m, h, dm2, mo, dw2, "*"] := by
  have hm := splitWS_tokens s m (by rw [hs]; simp)
  have hh := splitWS_tokens s h (by rw [hs]; simp)
  have hdm := splitWS_tokens s dm (by rw [hs]; simp)
  have hmo := splitWS_tokens s mo (by rw [hs]; simp)
  have hdw := splitWS_tokens s dw (by rw [hs]; simp)
  have hrw := remapDow_props dw hdw.1 hdw.2
  have hconv : convertCronToEventBridge s =
      some (joinSix m h (resolveDays dm (remapDow dw)).1 mo (resolveDays dm (remapDow dw)).2) := by
    unfold convertCronToEventBridge
    rw [hs]
  have hp1 : (resolveDays dm (remapDow dw)).1.data ≠ [] ∧
      ∀ c ∈ (resolveDays dm (remapDow dw)).1.data, isWSChar c = false := by
    rcases resolveDays_cases dm (remapDow dw) with hr | hr | hr <;> rw [hr]
    · exact hdm
    · exact qmark_props
    · exact hdm
  have hp2 : (resolveDays dm (remapDow dw)).2.data ≠ [] ∧
      ∀ c ∈ (resolveDays dm (remapDow dw)).2.data, isWSChar c = false := by
    rcases resolveDays_cases dm (remapDow dw) with hr | hr | hr <;> rw [hr]
    · exact qmark_props
    · exact hrw
    · exact hrw
  exact ⟨_, _, hconv,
    splitWS_joinSix m h _ mo _ hm.1 hm.2 hh.1 hh.2 hp1.1 hp1.2 hmo.1 hmo.2 hp2.1 hp2.2⟩

lemma convertCronToEventBridge_none_iff (s : String) :
    convertCronToEventBridge s = none ↔ (splitWS s).length ≠ 5 := by
  unfold convertCronToEventBridge
  rcases hl : splitWS s with _ | ⟨a, _ | ⟨b, _ | ⟨c, _ | ⟨d, _ | ⟨e, _ | ⟨f, l⟩⟩⟩⟩⟩⟩ <;> simp

lemma validate_shape (s : String) (h : validateCronExpression s = true) :
    ∃ a b c d e, splitWS s = [a, b, c, d, e] := by
  unfold validateCronExpression at h
  rcases hl : splitWS s with _ | ⟨a, _ | ⟨b, _ | ⟨c, _ | ⟨d, _ | ⟨e, _ | ⟨f, l⟩⟩⟩⟩⟩⟩ <;>
    rw [hl] at h <;> simp at h
  exact ⟨a, b, c, d, e, rfl⟩

/-!
## Claim theorems
-/

/-- **C1** (code bug, evaluation at the failing inputs).  The claim says the
day-of-week offset `f(n) = 1 if n == 0 else n + 1` is applied exactly once to
each bare integer (range endpoints included) and that the step value after
`/` is unchanged, e.g. `1-5 ↦ 2-6` and `1/2 ↦ 2/2`.  The code first rewrites
`1-5` to `2-6` with the range regex and then the word-boundary digit regex
hits the already-shifted digits again, giving `3-7`; in `1/2` the digit pass
shifts both base and step to `2/3` and the step block then shifts the base
once more, giving `3/3`.  Both inputs pass the validator, and the source's
own examples table lists `0 18 * * 1-5 ↦ 0 18 ? * 2-6 *`. -/
theorem C1_offset_applied_twice_on_ranges_and_steps :
    validateCronExpression "0 18 * * 1-5" = true ∧
    remapDow "1-5" = "3-7" ∧
    convert "0 18 * * 1-5" = some "0 18 ? * 3-7 *" ∧
    validateCronExpression "0 9 * * 1/2" = true ∧
    remapDow "1/2" = "3/3" ∧
    convert "0 9 * * 1/2" = some "0 9 ? * 3/3 *" := by
  refine ⟨by decide, by decide, by decide, by decide, by decide, by decide⟩

/-- **C2**.  For every input the conversion accepts (any five tokens), the
emitted day-of-month/day-of-week pair is never simultaneously specific
(non-`*`, non-`?`), and the resolution applied to the day-of-month token and
the remapped day-of-week follows the claimed four-row decision table. -/
theorem C2_mutual_exclusivity_decision_table (s m h dm mo dw : String)
    (hs : splitWS s = [m, h, dm, mo, dw]) :
    ∃ dm2 dw2, convertCronToEventBridge s = some (joinSix m h dm2 mo dw2) ∧
      ¬(dm2 ≠ "*" ∧ dm2 ≠ "?" ∧ dw2 ≠ "*" ∧ dw2 ≠ "?") ∧
      (dm ≠ "*" → remapDow dw ≠ "*" → dm2 = dm ∧ dw2 = "?") ∧
      (dm = "*" → remapDow dw = "*" → dm2 = "*" ∧ dw2 = "?") ∧
      (dm = "*" → remapDow dw ≠ "*" → dm2 = "?" ∧ dw2 = remapDow dw) ∧
      (dm ≠ "*" → remapDow dw = "*" → dm2 = dm ∧ dw2 = remapDow dw) := by
  refine ⟨(resolveDays dm (remapDow dw)).1, (resolveDays dm (remapDow dw)).2, ?_, ?_⟩
  · unfold convertCronToEventBridge
    rw [hs]
  · generalize remapDow dw = w
    unfold resolveDays
    split_ifs with h1 h2 h3 <;> simp <;> tauto

/-- Witness for `C2_mutual_exclusivity_decision_table` at the concrete input
`"0 9 5 * 1"` (day-of-month `5`, day-of-week `1`). -/
theorem C2_mutual_exclusivity_decision_table_witness :
    ∃ dm2 dw2, convertCronToEventBridge "0 9 5 * 1" = some (joinSix "0" "9" dm2 "*" dw2) ∧
      ¬(dm2 ≠ "*" ∧ dm2 ≠ "?" ∧ dw2 ≠ "*" ∧ dw2 ≠ "?") ∧
      ("5" ≠ "*" → remapDow "1" ≠ "*" → dm2 = "5" ∧ dw2 = "?") ∧
      ("5" = "*" → remapDow "1" = "*" → dm2 = "*" ∧ dw2 = "?") ∧
      ("5" = "*" → remapDow "1" ≠ "*" → dm2 = "?" ∧ dw2 = remapDow "1") ∧
      ("5" ≠ "*" → remapDow "1" = "*" → dm2 = "5" ∧ dw2 = remapDow "1") :=
  C2_mutual_exclusivity_decision_table "0 9 5 * 1" "0" "9" "5" "*" "1" (by decide)

/-- **C3** (code bug, evaluation at the failing input).  The claim (and the
source's own examples table) says `convert "0 18 * * 1-5"` is
`"0 18 ? * 2-6 *"`; the code actually returns `"0 18 ? * 3-7 *"` because the
word-boundary digit pass re-shifts the endpoints the range pass already
shifted. -/
theorem C3_weekday_range_example_diverges :
    convert "0 18 * * 1-5" = some "0 18 ? * 3-7 *" ∧
    ("0 18 ? * 3-7 *" : String) ≠ "0 18 ? * 2-6 *" := by
  refine ⟨by decide, by decide⟩

/-- **C4** (counterexample).  The claim says the remap sends `7 ↦ 1`, so a
day-of-week field `7` would have to come out as `1`; the code keeps `7`
unchanged (its digit callback returns the match for anything above 6). -/
theorem C4_seven_unchanged_counterexample :
    convert "30 14 * * 7" = some "30 14 ? * 7 *" ∧
    ("30 14 ? * 7 *" : String) ≠ "30 14 ? * 1 *" := by
  refine ⟨by decide, by decide⟩

/-- **C4** (amended).  On bare single-digit day-of-week fields the remap
sends `0 ↦ 1`, `n ↦ n + 1` for `1 ≤ n ≤ 6`, and leaves `7` unchanged
(`7 ↦ 7`, not `7 ↦ 1`); in particular `convert` keeps a lone `7`. -/
theorem C4_digit_remap_amended :
    remapDow "0" = "1" ∧ remapDow "1" = "2" ∧ remapDow "2" = "3" ∧
    remapDow "3" = "4" ∧ remapDow "4" = "5" ∧ remapDow "5" = "6" ∧
    remapDow "6" = "7" ∧ remapDow "7" = "7" ∧
    convert "30 14 * * 7" = some "30 14 ? * 7 *" := by
  refine ⟨by decide, by decide, by decide, by decide, by decide, by decide, by decide,
    by decide, by decide⟩

/-- **C5**.  The validate-then-convert pipeline fails exactly on the inputs
the validator rejects: it returns no output at all when
`validateCronExpression` is false, and on every validated input it succeeds
and emits a six-field expression. -/
theorem C5_convert_fails_iff_validate_false (s : String) :
    (convert s = none ↔ validateCronExpression s = false) ∧
    (validateCronExpression s = true →
      ∃ out, convert s = some out ∧ (splitWS out).length = 6) := by
  constructor
  · constructor
    · intro hn
      by_contra hv
      simp only [Bool.not_eq_false] at hv
      obtain ⟨a, b, c, d, e, hs⟩ := validate_shape s hv
      obtain ⟨dm2, dw2, hconv, _⟩ := convert_shape s a b c d e hs
      unfold convert at hn
      rw [hv] at hn
      simp only [if_true] at hn
      rw [hconv] at hn
      exact Option.some_ne_none _ hn
    · intro hv
      unfold convert
      rw [hv]
      simp
  · intro hv
    obtain ⟨a, b, c, d, e, hs⟩ := validate_shape s hv
    obtain ⟨dm2, dw2, hconv, hsplit⟩ := convert_shape s a b c d e hs
    refine ⟨joinSix a b dm2 d dw2, ?_, ?_⟩
    · unfold convert
      rw [hv]
      simpa using hconv
    · rw [hsplit]
      rfl

/-- Witness for `C5_convert_fails_iff_validate_false` at `"0 9 * * 1"`. -/
theorem C5_convert_fails_iff_validate_false_witness :
    ((convert "0 9 * * 1" = none ↔ validateCronExpression "0 9 * * 1" = false) ∧
      (validateCronExpression "0 9 * * 1" = true →
        ∃ out, convert "0 9 * * 1" = some out ∧ (splitWS out).length = 6)) ∧
    validateCronExpression "0 9 * * 1" = true :=
  ⟨C5_convert_fails_iff_validate_false "0 9 * * 1", by decide⟩

/-- **C9**.  On every input the validator accepts, the pipeline emits the
six fields minute, hour, day-of-month, month, day-of-week, year joined by
single spaces, in that order, with the literal `*` as the sixth field:
re-splitting the output on whitespace recovers exactly those six tokens. -/
theorem C9_output_has_six_fields (s m h dm mo dw : String)
    (hv : validateCronExpression s = true) (hs : splitWS s = [m, h, dm, mo, dw]) :
    ∃ dm2 dw2, convert s = some (joinSix m h dm2 mo dw2) ∧
      splitWS (joinSix m h dm2 mo dw2) = [m, h, dm2, mo, dw2, "*"] := by
  obtain ⟨dm2, dw2, hconv, hsplit⟩ := convert_shape s m h dm mo dw hs
  refine ⟨dm2, dw2, ?_, hsplit⟩
  unfold convert
  rw [hv]
  simpa using hconv

/-- Witness for `C9_output_has_six_fields` at `"0 9 * * 1"`. -/
theorem C9_output_has_six_fields_witness :
    ∃ dm2 dw2, convert "0 9 * * 1" = some (joinSix "0" "9" dm2 "*" dw2) ∧
      splitWS (joinSix "0" "9" dm2 "*" dw2) = ["0", "9", dm2, "*", dw2, "*"] :=
  C9_output_has_six_fields "0 9 * * 1" "0" "9" "*" "*" "1" (by decide) (by decide)

/-- **C10**.  The standalone conversion function errors exactly when the
input does not split into five whitespace-separated tokens; on any five
tokens — however invalid for their domains — it succeeds and returns a
six-field string, e.g. `"99 99 99 99 99" ↦ "99 99 99 99 ? *"`. -/
theorem C10_conversion_only_checks_field_count (s : String) :
    (convertCronToEventBridge s ≠ none ↔ (splitWS s).length = 5) ∧
    ((splitWS s).length = 5 →
      ∃ out, convertCronToEventBridge s = some out ∧ (splitWS out).length = 6) ∧
    convertCronToEventBridge "99 99 99 99 99" = some "99 99 99 99 ? *" := by
  refine ⟨?_, ?_, by decide⟩
  · have hiff := convertCronToEventBridge_none_iff s
    constructor
    · intro hne
      by_contra h5
      exact hne (hiff.mpr h5)
    · intro h5 hn
      exact hiff.mp hn h5
  · intro h5
    rcases hl : splitWS s with _ | ⟨a, _ | ⟨b, _ | ⟨c, _ | ⟨d, _ | ⟨e, _ | ⟨f, l⟩⟩⟩⟩⟩⟩ <;>
      rw [hl] at h5 <;> simp at h5
    obtain ⟨dm2, dw2, hconv, hsplit⟩ := convert_shape s a b c d e hl
    exact ⟨joinSix a b dm2 d dw2, hconv, by rw [hsplit]; rfl⟩

/-- Witness for `C10_conversion_only_checks_field_count` at
`"99 99 99 99 99"`. -/
theorem C10_conversion_only_checks_field_count_witness :
    ((convertCronToEventBridge "99 99 99 99 99" ≠ none ↔
        (splitWS "99 99 99 99 99").length = 5) ∧
      ((splitWS "99 99 99 99 99").length = 5 →
        ∃ out, convertCronToEventBridge "99 99 99 99 99" = some out ∧
          (splitWS out).length = 6) ∧
      convertCronToEventBridge "99 99 99 99 99" = some "99 99 99 99 ? *") ∧
    (splitWS "99 99 99 99 99").length = 5 :=
  ⟨C10_conversion_only_checks_field_count "99 99 99 99 99", by decide⟩

/-- **C6** (counterexample).  The claim says any 5-token input whose
day-of-month token contains `L` is rejected; but the code only rejects a
day-of-month field that *equals* `"L"` (while `W` is checked with
`includes`), so `"2L"` falls through to `parseInt("2L") = 2 ∈ [1,31]` and
the whole expression validates. -/
theorem C6_dom_2L_accepted_counterexample :
    splitWS "1 1 2L 1 1" = ["1", "1", "2L", "1", "1"] ∧
    strContains "2L" 'L' = true ∧
    validateCronExpression "1 1 2L 1 1" = true := by
  refine ⟨by decide, by decide, by decide⟩

/-- **C6** (amended).  The validator rejects a day-of-month token equal to
`"L"` or containing `W`, and a day-of-week token containing `#` or `L`
(so day-of-week `"5L"` is rejected); but a day-of-month token merely
containing `L`, such as `"2L"`, passes the screen and is accepted when its
integer prefix is in range. -/
theorem C6_unsupported_wildcards_amended (field : String) (mi ma : Int) :
    (strContains field 'W' = true → isValidCronField field mi ma "dayOfMonth" = false) ∧
    isValidCronField "L" mi ma "dayOfMonth" = false ∧
    (strContains field '#' = true → isValidCronField field mi ma "dayOfWeek" = false) ∧
    (strContains field 'L' = true → isValidCronField field mi ma "dayOfWeek" = false) ∧
    isValidCronField "2L" 1 31 "dayOfMonth" = true := by
  refine ⟨?_, ?_, ?_, ?_, by decide⟩
  · intro hW
    have hstar : field ≠ "*" := by rintro rfl; exact absurd hW (by decide)
    unfold isValidCronField
    rw [if_neg hstar]
    by_cases hL : field = "L"
    · rw [if_pos ⟨rfl, hL⟩]
    · rw [if_neg (fun hc => hL hc.2), if_pos ⟨rfl, hW⟩]
  · unfold isValidCronField
    rw [if_neg (by decide), if_pos ⟨rfl, rfl⟩]
  · intro hH
    have hstar : field ≠ "*" := by rintro rfl; exact absurd hH (by decide)
    unfold isValidCronField
    rw [if_neg hstar, if_neg (fun hc => by exact absurd hc.1 (by decide)),
      if_neg (fun hc => by exact absurd hc.1 (by decide)), if_pos ⟨rfl, hH⟩]
  · intro hL
    have hstar : field ≠ "*" := by rintro rfl; exact absurd hL (by decide)
    unfold isValidCronField
    rw [if_neg hstar, if_neg (fun hc => by exact absurd hc.1 (by decide)),
      if_neg (fun hc => by exact absurd hc.1 (by decide))]
    by_cases hH : strContains field '#' = true
    · rw [if_pos ⟨rfl, hH⟩]
    · rw [if_neg (fun hc => hH hc.2), if_pos ⟨rfl, hL⟩]

/-- Witness for `C6_unsupported_wildcards_amended`: day-of-month `"3W"` and
day-of-week `"5#3"` and `"5L"` are rejected, `"2L"` is accepted. -/
theorem C6_unsupported_wildcards_amended_witness :
    isValidCronField "3W" 1 31 "dayOfMonth" = false ∧
    isValidCronField "5#3" 0 7 "dayOfWeek" = false ∧
    isValidCronField "5L" 0 7 "dayOfWeek" = false ∧
    isValidCronField "2L" 1 31 "dayOfMonth" = true :=
  ⟨(C6_unsupported_wildcards_amended "3W" 1 31).1 (by decide),
   (C6_unsupported_wildcards_amended "5#3" 0 7).2.2.1 (by decide),
   (C6_unsupported_wildcards_amended "5L" 0 7).2.2.2.1 (by decide),
   (C6_unsupported_wildcards_amended "" 1 31).2.2.2.2⟩

/-- **C7** (counterexample).  The claim says every `range/step` field with a
non-positive step is rejected; but a step expression whose range part is a
named token, such as day-of-week `"SUN/0"`, is accepted by the named-day
pattern before the step check ever runs, even though its step part is `0`. -/
theorem C7_named_step_zero_counterexample :
    strContains "SUN/0" '/' = true ∧
    splitChar '/' ("SUN/0" : String).data = [['S', 'U', 'N'], ['0']] ∧
    parseIntChars ['0'] = some 0 ∧
    validateCronExpression "0 0 * * SUN/0" = true := by
  refine ⟨by decide, by decide, by decide, by decide⟩

/-- **C7** (amended).  For every field containing `/` that is not captured
by the named-token patterns (day names in the day-of-week field, month names
in the month field), the validator rejects it whenever the step part — the
second piece of the `/`-split — does not parse as an integer strictly
greater than 0, regardless of the range part. -/
theorem C7_step_must_be_positive_amended (field : String) (mi ma : Int) (fieldType : String)
    (range step : List Char) (rest : List (List Char))
    (hsp : splitChar '/' field.data = range :: step :: rest)
    (hslash : strContains field '/' = true)
    (hnamedD : ¬(fieldType = "dayOfWeek" ∧ matchesNamed dayNames field = true))
    (hnamedM : ¬(fieldType = "month" ∧ matchesNamed monthNames field = true))
    (hstep : parseIntChars step = none ∨ ∃ k, parseIntChars step = some k ∧ k ≤ 0) :
    isValidCronField field mi ma fieldType = false := by
  have hstar : field ≠ "*" := by rintro rfl; exact absurd hslash (by decide)
  unfold isValidCronField
  rw [if_neg hstar]
  by_cases h2 : fieldType = "dayOfMonth" ∧ field = "L"
  · rw [if_pos h2]
  rw [if_neg h2]
  by_cases h3 : fieldType = "dayOfMonth" ∧ strContains field 'W' = true
  · rw [if_pos h3]
  rw [if_neg h3]
  by_cases h4 : fieldType = "dayOfWeek" ∧ strContains field '#' = true
  · rw [if_pos h4]
  rw [if_neg h4]
  by_cases h5 : fieldType = "dayOfWeek" ∧ strContains field 'L' = true
  · rw [if_pos h5]
  rw [if_neg h5, if_neg hnamedD, if_neg hnamedM, if_pos hslash]
  have hsp2 : splitChar '/' field.toList = range :: step :: rest := hsp
  rw [hsp2]
  dsimp only
  rcases hstep with hnone | ⟨k, hk, hk0⟩
  · rw [hnone]
  · rw [hk]
    dsimp only
    rw [if_pos hk0]

/-- Witness for `C7_step_must_be_positive_amended`: the minute field `"*/0"`
(step `0`) is rejected. -/
theorem C7_step_must_be_positive_amended_witness :
    isValidCronField "*/0" 0 59 "minute" = false :=
  C7_step_must_be_positive_amended "*/0" 0 59 "minute" ['*'] ['0'] [] (by decide) (by decide)
    (by decide) (by decide) (Or.inr ⟨0, by decide, by decide⟩)

lemma charToNat_inj (a b : Char) (h : a.toNat = b.toNat) : a = b :=
  Char.ext (UInt32.ext h)

lemma prefixCI3_decomp (d0 d1 d2 : Char) (l : List Char)
    (h : isPrefixCI [d0, d1, d2] l = true) :
    ∃ c0 c1 c2 rest, l = c0 :: c1 :: c2 :: rest ∧ matchCI d0 c0 = true ∧
      matchCI d1 c1 = true ∧ matchCI d2 c2 = true := by
  rcases l with _ | ⟨c0, _ | ⟨c1, _ | ⟨c2, rest⟩⟩⟩ <;> simp [isPrefixCI] at h
  exact ⟨c0, c1, c2, rest, rfl, by simp [h.1], by simp [h.2.1], by simp [h.2.2]⟩

lemma dayNames_codes (field : String) (h : matchesNamed dayNames field = true) :
    ∃ c0 c1 c2 rest, field.data = c0 :: c1 :: c2 :: rest ∧
      (((c0.toNat = 83 ∨ c0.toNat = 115) ∧ (c1.toNat = 85 ∨ c1.toNat = 117)) ∨
       ((c0.toNat = 77 ∨ c0.toNat = 109) ∧ (c1.toNat = 79 ∨ c1.toNat = 111)) ∨
       (c0.toNat = 84 ∨ c0.toNat = 116) ∨
       (c0.toNat = 87 ∨ c0.toNat = 119) ∨
       ((c0.toNat = 70 ∨ c0.toNat = 102) ∧ (c1.toNat = 82 ∨ c1.toNat = 114)) ∨
       ((c0.toNat = 83 ∨ c0.toNat = 115) ∧ (c1.toNat = 65 ∨ c1.toNat = 97))) := by
  unfold matchesNamed at h
  obtain ⟨nm, hmem, hf⟩ := List.any_eq_true.mp h
  simp only [Bool.and_eq_true] at hf
  have hpre := hf.1
  fin_cases hmem
  · have hp : isPrefixCI ['S', 'U', 'N'] field.data = true := hpre
    obtain ⟨c0, c1, c2, rest, hl, h0, h1, h2⟩ := prefixCI3_decomp _ _ _ _ hp
    simp [matchCI] at h0 h1
    exact ⟨c0, c1, c2, rest, hl, Or.inl ⟨by omega, by omega⟩⟩
  · have hp : isPrefixCI ['M', 'O', 'N'] field.data = true := hpre
    obtain ⟨c0, c1, c2, rest, hl, h0, h1, h2⟩ := prefixCI3_decomp _ _ _ _ hp
    simp [matchCI] at h0 h1
    exact ⟨c0, c1, c2, rest, hl, Or.inr (Or.inl ⟨by omega, by omega⟩)⟩
  · have hp : isPrefixCI ['T', 'U', 'E'] field.data = true := hpre
    obtain ⟨c0, c1, c2, rest, hl, h0, h1, h2⟩ := prefixCI3_decomp _ _ _ _ hp
    simp [matchCI] at h0
    exact ⟨c0, c1, c2, rest, hl, Or.inr (Or.inr (Or.inl (by omega)))⟩
  · have hp : isPrefixCI ['W', 'E', 'D'] field.data = true := hpre
    obtain ⟨c0, c1, c2, rest, hl, h0, h1, h2⟩ := prefixCI3_decomp _ _ _ _ hp
    simp [matchCI] at h0
    exact ⟨c0, c1, c2, rest, hl, Or.inr (Or.inr (Or.inr (Or.inl (by omega))))⟩
  · have hp : isPrefixCI ['T', 'H', 'U'] field.data = true := hpre
    obtain ⟨c0, c1, c2, rest, hl, h0, h1, h2⟩ := prefixCI3_decomp _ _ _ _ hp
    simp [matchCI] at h0
    exact ⟨c0, c1, c2, rest, hl, Or.inr (Or.inr (Or.inl (by omega)))⟩
  · have hp : isPrefixCI ['F', 'R', 'I'] field.data = true := hpre
    obtain ⟨c0, c1, c2, rest, hl, h0, h1, h2⟩ := prefixCI3_decomp _ _ _ _ hp
    simp [matchCI] at h0 h1
    exact ⟨c0, c1, c2, rest, hl, Or.inr (Or.inr (Or.inr (Or.inr (Or.inl ⟨by omega, by omega⟩))))⟩
  · have hp : isPrefixCI ['S', 'A', 'T'] field.data = true := hpre
    obtain ⟨c0, c1, c2, rest, hl, h0, h1, h2⟩ := prefixCI3_decomp _ _ _ _ hp
    simp [matchCI] at h0 h1
    exact ⟨c0, c1, c2, rest, hl, Or.inr (Or.inr (Or.inr (Or.inr (Or.inr ⟨by omega, by omega⟩))))⟩

lemma monthNames_codes (field : String) (h : matchesNamed monthNames field = true) :
    ∃ c0 c1 c2 rest, field.data = c0 :: c1 :: c2 :: rest ∧
      ((c0.toNat = 74 ∨ c0.toNat = 106) ∨
       ((c0.toNat = 70 ∨ c0.toNat = 102) ∧ (c1.toNat = 69 ∨ c1.toNat = 101)) ∨
       ((c0.toNat = 77 ∨ c0.toNat = 109) ∧ (c1.toNat = 65 ∨ c1.toNat = 97)) ∨
       (c0.toNat = 65 ∨ c0.toNat = 97) ∨
       ((c0.toNat = 83 ∨ c0.toNat = 115) ∧ (c1.toNat = 69 ∨ c1.toNat = 101)) ∨
       (c0.toNat = 79 ∨ c0.toNat = 111) ∨
       (c0.toNat = 78 ∨ c0.toNat = 110) ∨
       (c0.toNat = 68 ∨ c0.toNat = 100)) := by
  unfold matchesNamed at h
  obtain ⟨nm, hmem, hf⟩ := List.any_eq_true.mp h
  simp only [Bool.and_eq_true] at hf
  have hpre := hf.1
  fin_cases hmem
  · have hp : isPrefixCI ['J', 'A', 'N'] field.data = true := hpre
    obtain ⟨c0, c1, c2, rest, hl, h0, h1, h2⟩ := prefixCI3_decomp _ _ _ _ hp
    simp [matchCI] at h0
    exact ⟨c0, c1, c2, rest, hl, Or.inl (by omega)⟩
  · have hp : isPrefixCI ['F', 'E', 'B'] field.data = true := hpre
    obtain ⟨c0, c1, c2, rest, hl, h0, h1, h2⟩ := prefixCI3_decomp _ _ _ _ hp
    simp [matchCI] at h0 h1
    exact ⟨c0, c1, c2, rest, hl, Or.inr (Or.inl ⟨by omega, by omega⟩)⟩
  · have hp : isPrefixCI ['M', 'A', 'R'] field.data = true := hpre
    obtain ⟨c0, c1, c2, rest, hl, h0, h1, h2⟩ := prefixCI3_decomp _ _ _ _ hp
    simp [matchCI] at h0 h1
    exact ⟨c0, c1, c2, rest, hl, Or.inr (Or.inr (Or.inl ⟨by omega, by omega⟩))⟩
  · have hp : isPrefixCI ['A', 'P', 'R'] field.data = true := hpre
    obtain ⟨c0, c1, c2, rest, hl, h0, h1, h2⟩ := prefixCI3_decomp _ _ _ _ hp
    simp [matchCI] at h0
    exact ⟨c0, c1, c2, rest, hl, Or.inr (Or.inr (Or.inr (Or.inl (by omega))))⟩
  · have hp : isPrefixCI ['M', 'A', 'Y'] field.data = true := hpre
    obtain ⟨c0, c1, c2, rest, hl, h0, h1, h2⟩ := prefixCI3_decomp _ _ _ _ hp
    simp [matchCI] at h0 h1
    exact ⟨c0, c1, c2, rest, hl, Or.inr (Or.inr (Or.inl ⟨by omega, by omega⟩))⟩
  · have hp : isPrefixCI ['J', 'U', 'N'] field.data = true := hpre
    obtain ⟨c0, c1, c2, rest, hl, h0, h1, h2⟩ := prefixCI3_decomp _ _ _ _ hp
    simp [matchCI] at h0
    exact ⟨c0, c1, c2, rest, hl, Or.inl (by omega)⟩
  · have hp : isPrefixCI ['J', 'U', 'L'] field.data = true := hpre
    obtain ⟨c0, c1, c2, rest, hl, h0, h1, h2⟩ := prefixCI3_decomp _ _ _ _ hp
    simp [matchCI] at h0
    exact ⟨c0, c1, c2, rest, hl, Or.inl (by omega)⟩
  · have hp : isPrefixCI ['A', 'U', 'G'] field.data = true := hpre
    obtain ⟨c0, c1, c2, rest, hl, h0, h1, h2⟩ := prefixCI3_decomp _ _ _ _ hp
    simp [matchCI] at h0
    exact ⟨c0, c1, c2, rest, hl, Or.inr (Or.inr (Or.inr (Or.inl (by omega))))⟩
  · have hp : isPrefixCI ['S', 'E', 'P'] field.data = true := hpre
    obtain ⟨c0, c1, c2, rest, hl, h0, h1, h2⟩ := prefixCI3_decomp _ _ _ _ hp
    simp [matchCI] at h0 h1
    exact ⟨c0, c1, c2, rest, hl, Or.inr (Or.inr (Or.inr (Or.inr (Or.inl ⟨by omega, by omega⟩))))⟩
  · have hp : isPrefixCI ['O', 'C', 'T'] field.data = true := hpre
    obtain ⟨c0, c1, c2, rest, hl, h0, h1, h2⟩ := prefixCI3_decomp _ _ _ _ hp
    simp [matchCI] at h0
    exact ⟨c0, c1, c2, rest, hl, Or.inr (Or.inr (Or.inr (Or.inr (Or.inr (Or.inl (by omega))))))⟩
  · have hp : isPrefixCI ['N', 'O', 'V'] field.data = true := hpre
    obtain ⟨c0, c1, c2, rest, hl, h0, h1, h2⟩ := prefixCI3_decomp _ _ _ _ hp
    simp [matchCI] at h0
    exact ⟨c0, c1, c2, rest, hl,
      Or.inr (Or.inr (Or.inr (Or.inr (Or.inr (Or.inr (Or.inl (by omega)))))))⟩
  · have hp : isPrefixCI ['D', 'E', 'C'] field.data = true := hpre
    obtain ⟨c0, c1, c2, rest, hl, h0, h1, h2⟩ := prefixCI3_decomp _ _ _ _ hp
    simp [matchCI] at h0
    exact ⟨c0, c1, c2, rest, hl,
      Or.inr (Or.inr (Or.inr (Or.inr (Or.inr (Or.inr (Or.inr (by omega)))))))⟩

lemma dayMonth_disjoint (field : String) (hd : matchesNamed dayNames field = true)
    (hm : matchesNamed monthNames field = true) : False := by
  obtain ⟨c0, c1, c2, rest, hl, hcodes⟩ := dayNames_codes field hd
  obtain ⟨c0', c1', c2', rest', hl', hcodes'⟩ := monthNames_codes field hm
  rw [hl] at hl'
  injection hl' with e0 hl'
  injection hl' with e1 hl'
  subst e0
  subst e1
  omega

lemma parseIntChars_letter_head (c : Char) (rest : List Char)
    (hc : (65 ≤ c.toNat ∧ c.toNat ≤ 90) ∨ (97 ≤ c.toNat ∧ c.toNat ≤ 122)) :
    parseIntChars (c :: rest) = none := by
  have hws : isWSChar c = false := by simp [isWSChar]; omega
  have hdig : isDigitChar c = false := by simp [isDigitChar]; omega
  unfold parseIntChars
  rw [List.dropWhile_cons, if_neg (by simp [hws])]
  dsimp only
  rw [if_neg (fun h => by have := congrArg Char.toNat h; simp at this; omega),
    if_neg (fun h => by have := congrArg Char.toNat h; simp at this; omega)]
  rcases rest with _ | ⟨c1, rest2⟩
  · unfold parseUnsigned
    simp [hdig]
  · unfold parseUnsigned
    have h0 : ¬(c = '0' ∧ (c1 = 'x' ∨ c1 = 'X')) := by
      rintro ⟨h, -⟩
      have := congrArg Char.toNat h
      simp at this
      omega
    dsimp only
    rw [if_neg h0]
    simp [hdig]

lemma dropWhile_append_singleton (p : Char → Bool) (c : Char) (hc : p c = false) :
    ∀ xs : List Char, (xs ++ [c]).dropWhile p = xs.dropWhile p ++ [c] := by
  intro xs
  induction xs with
  | nil => simp [List.dropWhile, hc]
  | cons x xs ih =>
    rw [List.cons_append, List.dropWhile_cons, List.dropWhile_cons]
    split_ifs with hx
    · exact ih
    · simp

lemma trimList_cons (c : Char) (l : List Char) (hc : isWSChar c = false) :
    ∃ l2, trimList (c :: l) = c :: l2 := by
  unfold trimList
  rw [List.dropWhile_cons, if_neg (by simp [hc]), List.reverse_cons,
    dropWhile_append_singleton isWSChar c hc, List.reverse_append]
  exact ⟨_, rfl⟩

lemma checkRange_letter_head_false (c : Char) (tail : List Char) (mi ma : Int)
    (hc : (65 ≤ c.toNat ∧ c.toNat ≤ 90) ∨ (97 ≤ c.toNat ∧ c.toNat ≤ 122)) :
    checkRange (c :: tail) mi ma = false := by
  have hdash_ne : c ≠ '-' := by
    intro h; have := congrArg Char.toNat h; simp at this; omega
  unfold checkRange
  obtain ⟨p, ps, hsp0, hsp⟩ := splitChar_cons_ne '-' c tail hdash_ne
  rw [hsp]
  rcases ps with _ | ⟨en, ps2⟩
  · rfl
  · dsimp only
    rw [parseIntChars_letter_head c p hc]

lemma isValidCronField_letter_head_false (field : String) (mi ma : Int) (fieldType : String)
    (c : Char) (rest : List Char) (hfd : field.data = c :: rest)
    (hc : (65 ≤ c.toNat ∧ c.toNat ≤ 90) ∨ (97 ≤ c.toNat ∧ c.toNat ≤ 122))
    (hnamedD : ¬(fieldType = "dayOfWeek" ∧ matchesNamed dayNames field = true))
    (hnamedM : ¬(fieldType = "month" ∧ matchesNamed monthNames field = true)) :
    isValidCronField field mi ma fieldType = false := by
  have hcws : isWSChar c = false := by simp [isWSChar]; omega
  have hstar : field ≠ "*" := by
    intro h
    have h2 : field.data = ['*'] := by rw [h]
    rw [hfd] at h2
    injection h2 with e _
    have := congrArg Char.toNat e
    simp at this
    omega
  have hslash_ne : c ≠ '/' := by
    intro h; have := congrArg Char.toNat h; simp at this; omega
  have hcomma_ne : c ≠ ',' := by
    intro h; have := congrArg Char.toNat h; simp at this; omega
  have hpin : ∀ tail : List Char, parseIntChars (c :: tail) = none :=
    fun tail => parseIntChars_letter_head c tail hc
  have hft : field.toList = c :: rest := hfd
  unfold isValidCronField
  rw [if_neg hstar]
  by_cases h2 : fieldType = "dayOfMonth" ∧ field = "L"
  · rw [if_pos h2]
  rw [if_neg h2]
  by_cases h3 : fieldType = "dayOfMonth" ∧ strContains field 'W' = true
  · rw [if_pos h3]
  rw [if_neg h3]
  by_cases h4 : fieldType = "dayOfWeek" ∧ strContains field '#' = true
  · rw [if_pos h4]
  rw [if_neg h4]
  by_cases h5 : fieldType = "dayOfWeek" ∧ strContains field 'L' = true
  · rw [if_pos h5]
  rw [if_neg h5, if_neg hnamedD, if_neg hnamedM]
  by_cases h8 : strContains field '/' = true
  · rw [if_pos h8]
    obtain ⟨p, ps, hsp0, hsp⟩ := splitChar_cons_ne '/' c rest hslash_ne
    rw [hft, hsp]
    rcases ps with _ | ⟨step, ps2⟩
    · rfl
    · dsimp only
      rcases hstep : parseIntChars step with _ | k
      · rfl
      · dsimp only
        by_cases hk : k ≤ 0
        · rw [if_pos hk]
        rw [if_neg hk]
        have hstar2 : ¬(c :: p = ['*']) := by
          intro h
          injection h with e _
          have := congrArg Char.toNat e
          simp at this
          omega
        rw [if_neg hstar2]
        by_cases hd : (c :: p).any (fun x => x = '-') = true
        · rw [if_pos hd]
          exact checkRange_letter_head_false c p mi ma hc
        · rw [if_neg hd, hpin p]
  rw [if_neg h8]
  by_cases h9 : strContains field '-' = true
  · rw [if_pos h9, hft]
    exact checkRange_letter_head_false c rest mi ma hc
  rw [if_neg h9]
  by_cases h10 : strContains field ',' = true
  · rw [if_pos h10, hft]
    obtain ⟨p, ps, hsp0, hsp⟩ := splitChar_cons_ne ',' c rest hcomma_ne
    rw [hsp, List.all_cons]
    obtain ⟨l2, htrim⟩ := trimList_cons c p hcws
    rw [htrim, hpin l2]
    rfl
  rw [if_neg h10, hft, hpin rest]

lemma matchesNamed_day_head (field : String) (h : matchesNamed dayNames field = true) :
    ∃ c rest, field.data = c :: rest ∧
      ((65 ≤ c.toNat ∧ c.toNat ≤ 90) ∨ (97 ≤ c.toNat ∧ c.toNat ≤ 122)) := by
  obtain ⟨c0, c1, c2, rest, hl, hcodes⟩ := dayNames_codes field h
  exact ⟨c0, c1 :: c2 :: rest, hl, by omega⟩

lemma matchesNamed_month_head (field : String) (h : matchesNamed monthNames field = true) :
    ∃ c rest, field.data = c :: rest ∧
      ((65 ≤ c.toNat ∧ c.toNat ≤ 90) ∨ (97 ≤ c.toNat ∧ c.toNat ≤ 122)) := by
  obtain ⟨c0, c1, c2, rest, hl, hcodes⟩ := monthNames_codes field h
  exact ⟨c0, c1 :: c2 :: rest, hl, by omega⟩

lemma named_field_ne_star (field : String) (c : Char) (rest : List Char)
    (hfd : field.data = c :: rest)
    (hc : (65 ≤ c.toNat ∧ c.toNat ≤ 90) ∨ (97 ≤ c.toNat ∧ c.toNat ≤ 122)) :
    field ≠ "*" := by
  intro h
  have h2 : field.data = ['*'] := by rw [h]
  rw [hfd] at h2
  injection h2 with e _
  have := congrArg Char.toNat e
  simp at this
  omega

lemma dow_named_accept (field : String) (hnamed : matchesNamed dayNames field = true)
    (hH : strContains field '#' = false) (hL : strContains field 'L' = false) :
    isValidCronField field 0 7 "dayOfWeek" = true := by
  obtain ⟨c, rest, hfd, hc⟩ := matchesNamed_day_head field hnamed
  have hstar := named_field_ne_star field c rest hfd hc
  unfold isValidCronField
  rw [if_neg hstar,
    if_neg (fun hx => absurd hx.1 (by decide)),
    if_neg (fun hx => absurd hx.1 (by decide)),
    if_neg (fun hx => by rw [hH] at hx; exact absurd hx.2 (by decide)),
    if_neg (fun hx => by rw [hL] at hx; exact absurd hx.2 (by decide)),
    if_pos ⟨rfl, hnamed⟩]

lemma month_named_accept (field : String) (hnamed : matchesNamed monthNames field = true) :
    isValidCronField field 1 12 "month" = true := by
  obtain ⟨c, rest, hfd, hc⟩ := matchesNamed_month_head field hnamed
  have hstar := named_field_ne_star field c rest hfd hc
  unfold isValidCronField
  rw [if_neg hstar,
    if_neg (fun hx => absurd hx.1 (by decide)),
    if_neg (fun hx => absurd hx.1 (by decide)),
    if_neg (fun hx => absurd hx.1 (by decide)),
    if_neg (fun hx => absurd hx.1 (by decide)),
    if_neg (fun hx => absurd hx.1 (by decide)),
    if_pos ⟨rfl, hnamed⟩]

lemma dow_accept_no_hash_no_L (field : String)
    (h : isValidCronField field 0 7 "dayOfWeek" = true) :
    strContains field '#' = false ∧ strContains field 'L' = false := by
  by_cases hstar : field = "*"
  · subst hstar
    exact ⟨by decide, by decide⟩
  constructor
  · rcases hH : strContains field '#' with _ | _
    · rfl
    · exfalso
      unfold isValidCronField at h
      rw [if_neg hstar,
        if_neg (fun hx => absurd hx.1 (by decide)),
        if_neg (fun hx => absurd hx.1 (by decide)),
        if_pos ⟨rfl, hH⟩] at h
      exact absurd h (by decide)
  · rcases hL : strContains field 'L' with _ | _
    · rfl
    · exfalso
      unfold isValidCronField at h
      rw [if_neg hstar,
        if_neg (fun hx => absurd hx.1 (by decide)),
        if_neg (fun hx => absurd hx.1 (by decide))] at h
      by_cases hH : strContains field '#' = true
      · rw [if_pos ⟨rfl, hH⟩] at h
        exact absurd h (by decide)
      · rw [if_neg (fun hx => hH hx.2), if_pos ⟨rfl, hL⟩] at h
        exact absurd h (by decide)

lemma toNat_ofNat_small (n : Nat) (h : n < 55296) : (Char.ofNat n).toNat = n := by
  unfold Char.ofNat
  rw [dif_pos (by left; omega)]
  rfl

lemma lowerChar_toNat (c : Char) :
    (lowerChar c).toNat =
      if 65 ≤ c.toNat ∧ c.toNat ≤ 90 then c.toNat + 32 else c.toNat := by
  unfold lowerChar
  split_ifs with h
  · exact toNat_ofNat_small _ (by omega)
  · rfl

lemma matchCI_lowerChar (p c : Char) (hp : 65 ≤ p.toNat ∧ p.toNat ≤ 90) :
    matchCI p (lowerChar c) = matchCI p c := by
  rw [Bool.eq_iff_iff]
  simp only [matchCI, lowerChar_toNat, Bool.or_eq_true, Bool.and_eq_true, decide_eq_true_eq]
  split_ifs with h <;> omega

lemma namedClassChar_lowerChar (c : Char) :
    namedClassChar (lowerChar c) = namedClassChar c := by
  rw [Bool.eq_iff_iff]
  simp only [namedClassChar, lowerChar_toNat, Bool.or_eq_true, Bool.and_eq_true,
    decide_eq_true_eq]
  split_ifs with h <;> omega

lemma isPrefixCI_map_lowerChar : ∀ (p l : List Char),
    (∀ x ∈ p, 65 ≤ x.toNat ∧ x.toNat ≤ 90) →
    isPrefixCI p (l.map lowerChar) = isPrefixCI p l := by
  intro p
  induction p with
  | nil => intro l _; rfl
  | cons a p ih =>
    intro l hp
    rcases l with _ | ⟨c, l⟩
    · rfl
    · show (matchCI a (lowerChar c) && isPrefixCI p (l.map lowerChar)) = _
      rw [matchCI_lowerChar a c (hp a (by simp)), ih l (fun x hx => hp x (by simp [hx]))]
      rfl

lemma all_map_lowerChar (l : List Char) :
    (l.map lowerChar).all namedClassChar = l.all namedClassChar := by
  induction l with
  | nil => rfl
  | cons c l ih =>
    rw [List.map_cons, List.all_cons, List.all_cons, namedClassChar_lowerChar, ih]

lemma matchesNamed_lowerStr (names : List String) (field : String)
    (hn : ∀ nm ∈ names, ∀ x ∈ nm.data, 65 ≤ x.toNat ∧ x.toNat ≤ 90) :
    matchesNamed names (lowerStr field) = matchesNamed names field := by
  unfold matchesNamed
  rw [Bool.eq_iff_iff]
  simp only [List.any_eq_true, Bool.and_eq_true]
  refine exists_congr fun nm => and_congr_right fun hmem => ?_
  have h1 : (lowerStr field).toList = field.data.map lowerChar := rfl
  have h2 : field.toList = field.data := rfl
  rw [h1, h2, isPrefixCI_map_lowerChar nm.toList field.data (hn nm hmem),
    ← List.map_drop, all_map_lowerChar]

lemma lowerStr_no_L (s : String) : strContains (lowerStr s) 'L' = false := by
  unfold strContains lowerStr
  rw [show (String.mk (s.data.map lowerChar)).toList = s.data.map lowerChar from rfl]
  rw [List.any_map]
  rw [List.any_eq_false]
  intro c _
  simp only [Function.comp_apply, decide_eq_true_eq]
  intro h
  have := congrArg Char.toNat h
  rw [lowerChar_toNat] at this
  split_ifs at this <;> simp at this <;> omega

lemma lowerStr_no_hash (s : String) (h : strContains s '#' = false) :
    strContains (lowerStr s) '#' = false := by
  unfold strContains lowerStr
  rw [show (String.mk (s.data.map lowerChar)).toList = s.data.map lowerChar from rfl]
  rw [List.any_map, List.any_eq_false]
  intro c hc
  simp only [Function.comp_apply, decide_eq_true_eq]
  intro he
  have h2 := congrArg Char.toNat he
  rw [lowerChar_toNat] at h2
  split_ifs at h2 with hr
  · simp at h2; omega
  · simp at h2
    have hce : c = '#' := charToNat_inj c '#' (by simpa using h2)
    unfold strContains at h
    rw [List.any_eq_false] at h
    have := h c hc
    simp [hce] at this

lemma lowerStr_ne_star (field : String) (c : Char) (rest : List Char)
    (hfd : field.data = c :: rest)
    (hc : (65 ≤ c.toNat ∧ c.toNat ≤ 90) ∨ (97 ≤ c.toNat ∧ c.toNat ≤ 122)) :
    lowerStr field ≠ "*" := by
  intro h
  have h2 : (lowerStr field).data = ['*'] := by rw [h]
  rw [show (lowerStr field).data = field.data.map lowerChar from rfl, hfd] at h2
  simp only [List.map_cons] at h2
  injection h2 with e _
  have := congrArg Char.toNat e
  rw [lowerChar_toNat] at this
  split_ifs at this <;> simp at this <;> omega

lemma dow_accept_lower (field : String) (hd : matchesNamed dayNames field = true)
    (hacc : isValidCronField field 0 7 "dayOfWeek" = true) :
    isValidCronField (lowerStr field) 0 7 "dayOfWeek" = true := by
  obtain ⟨hH, hL⟩ := dow_accept_no_hash_no_L field hacc
  have hd2 : matchesNamed dayNames (lowerStr field) = true := by
    rw [matchesNamed_lowerStr dayNames field (by decide)]
    exact hd
  exact dow_named_accept (lowerStr field) hd2 (lowerStr_no_hash field hH) (lowerStr_no_L field)

/-- **C8**.  A named-token field expression (a day- or month-name pattern
match) is rejected by the validator in the minute, hour and day-of-month
fields; a day-name expression is rejected in the month field and a
month-name expression in the day-of-week field; the pattern match is
case-insensitive (lower-casing the field does not change it), acceptance in
the day-of-week and month fields survives lower-casing, and the concrete
forms `MON`/`mon` and `JAN`/`jan` are accepted in their fields. -/
theorem C8_named_tokens_field_specific (field : String)
    (hnamed : matchesNamed dayNames field = true ∨ matchesNamed monthNames field = true) :
    isValidCronField field 0 59 "minute" = false ∧
    isValidCronField field 0 23 "hour" = false ∧
    isValidCronField field 1 31 "dayOfMonth" = false ∧
    (matchesNamed dayNames field = true → isValidCronField field 1 12 "month" = false) ∧
    (matchesNamed monthNames field = true → isValidCronField field 0 7 "dayOfWeek" = false) ∧
    matchesNamed dayNames (lowerStr field) = matchesNamed dayNames field ∧
    matchesNamed monthNames (lowerStr field) = matchesNamed monthNames field ∧
    (isValidCronField field 0 7 "dayOfWeek" = true →
      isValidCronField (lowerStr field) 0 7 "dayOfWeek" = true) ∧
    (isValidCronField field 1 12 "month" = true →
      isValidCronField (lowerStr field) 1 12 "month" = true) ∧
    isValidCronField "MON" 0 7 "dayOfWeek" = true ∧
    isValidCronField "mon" 0 7 "dayOfWeek" = true ∧
    isValidCronField "JAN" 1 12 "month" = true ∧
    isValidCronField "jan" 1 12 "month" = true := by
  have hhead : ∃ c rest, field.data = c :: rest ∧
      ((65 ≤ c.toNat ∧ c.toNat ≤ 90) ∨ (97 ≤ c.toNat ∧ c.toNat ≤ 122)) := by
    rcases hnamed with hd | hm
    · exact matchesNamed_day_head field hd
    · exact matchesNamed_month_head field hm
  obtain ⟨c, rest, hfd, hc⟩ := hhead
  refine ⟨?_, ?_, ?_, ?_, ?_, ?_, ?_, ?_, ?_, by decide, by decide, by decide, by decide⟩
  · exact isValidCronField_letter_head_false field 0 59 "minute" c rest hfd hc
      (fun hx => absurd hx.1 (by decide)) (fun hx => absurd hx.1 (by decide))
  · exact isValidCronField_letter_head_false field 0 23 "hour" c rest hfd hc
      (fun hx => absurd hx.1 (by decide)) (fun hx => absurd hx.1 (by decide))
  · exact isValidCronField_letter_head_false field 1 31 "dayOfMonth" c rest hfd hc
      (fun hx => absurd hx.1 (by decide)) (fun hx => absurd hx.1 (by decide))
  · intro hd
    exact isValidCronField_letter_head_false field 1 12 "month" c rest hfd hc
      (fun hx => absurd hx.1 (by decide)) (fun hx => dayMonth_disjoint field hd hx.2)
  · intro hm
    exact isValidCronField_letter_head_false field 0 7 "dayOfWeek" c rest hfd hc
      (fun hx => dayMonth_disjoint field hx.2 hm) (fun hx => absurd hx.1 (by decide))
  · exact matchesNamed_lowerStr dayNames field (by decide)
  · exact matchesNamed_lowerStr monthNames field (by decide)
  · intro hacc
    rcases hnamed with hd | hm
    · exact dow_accept_lower field hd hacc
    · have hfalse := isValidCronField_letter_head_false field 0 7 "dayOfWeek" c rest hfd hc
        (fun hx => dayMonth_disjoint field hx.2 hm) (fun hx => absurd hx.1 (by decide))
      rw [hfalse] at hacc
      exact absurd hacc (by decide)
  · intro hacc
    rcases hnamed with hd | hm
    · have hfalse := isValidCronField_letter_head_false field 1 12 "month" c rest hfd hc
        (fun hx => absurd hx.1 (by decide)) (fun hx => dayMonth_disjoint field hd hx.2)
      rw [hfalse] at hacc
      exact absurd hacc (by decide)
    · have hm2 : matchesNamed monthNames (lowerStr field) = true := by
        rw [matchesNamed_lowerStr monthNames field (by decide)]
        exact hm
      exact month_named_accept (lowerStr field) hm2

/-- Witness for `C8_named_tokens_field_specific` at the day name `"MON"`. -/
theorem C8_named_tokens_field_specific_witness :
    (isValidCronField "MON" 0 59 "minute" = false ∧
      isValidCronField "MON" 0 23 "hour" = false ∧
      isValidCronField "MON" 1 31 "dayOfMonth" = false ∧
      (matchesNamed dayNames "MON" = true → isValidCronField "MON" 1 12 "month" = false) ∧
      (matchesNamed monthNames "MON" = true → isValidCronField "MON" 0 7 "dayOfWeek" = false) ∧
      matchesNamed dayNames (lowerStr "MON") = matchesNamed dayNames "MON" ∧
      matchesNamed monthNames (lowerStr "MON") = matchesNamed monthNames "MON" ∧
      (isValidCronField "MON" 0 7 "dayOfWeek" = true →
        isValidCronField (lowerStr "MON") 0 7 "dayOfWeek" = true) ∧
      (isValidCronField "MON" 1 12 "month" = true →
        isValidCronField (lowerStr "MON") 1 12 "month" = true) ∧
      isValidCronField "MON" 0 7 "dayOfWeek" = true ∧
      isValidCronField "mon" 0 7 "dayOfWeek" = true ∧
      isValidCronField "JAN" 1 12 "month" = true ∧
      isValidCronField "jan" 1 12 "month" = true) ∧
    matchesNamed dayNames "MON" = true :=
  ⟨C8_named_tokens_field_specific "MON" (Or.inl (by decide)), by decide⟩
